import Mathlib

set_option maxHeartbeats 1000000

/- Shallow embedding of the Lotus DeepCpuLstm operator
   (src/lotus/core/providers/cpu/rnn/deep_cpu_lstm.cc).

   Scalar values of type T = float are modelled as rationals; buffers are
   modelled as total functions from flat indices to rationals, and an
   in-place store loop becomes a functional buffer update.  The activation
   registry, the GEMM primitive, the thread-pool dispatcher and the
   element-wise deepcpu kernels are external collaborators of the core and
   are modelled from the spec where noted in the doc comments. -/

/-- Write values v 0, .., v (n-1) at indices idx 0, .., idx (n-1) into dst,
in increasing loop order, later stores winning.  Models a C loop of stores
into a flat buffer. -/
def writeMany (idx : ℕ → ℕ) (v : ℕ → ℚ) : ℕ → (ℕ → ℚ) → (ℕ → ℚ)
  | 0, dst => dst
  | n + 1, dst => Function.update (writeMany idx v n dst) (idx n) (v n)

theorem writeMany_at (idx : ℕ → ℕ) (v : ℕ → ℚ) (n c : ℕ) (dst : ℕ → ℚ)
    (hc : c < n) (hinj : ∀ c', c' < n → idx c' = idx c → c' = c) :
    writeMany idx v n dst (idx c) = v c := by
  induction n with
  | zero => omega
  | succ m ih =>
    by_cases hcm : c = m
    · subst hcm
      simp [writeMany]
    · have hne : idx m ≠ idx c := by
        intro he
        exact hcm (hinj m (Nat.lt_succ_self m) he).symm
      have hc' : c < m := by omega
      simp only [writeMany, Function.update]
      rw [dif_neg (by exact fun h => hne h.symm)]
      exact ih hc' (fun c' h1 h2 => hinj c' (by omega) h2)

theorem writeMany_ne (idx : ℕ → ℕ) (v : ℕ → ℚ) (n i : ℕ) (dst : ℕ → ℚ)
    (h : ∀ c, c < n → idx c ≠ i) :
    writeMany idx v n dst i = dst i := by
  induction n with
  | zero => rfl
  | succ m ih =>
    simp only [writeMany, Function.update]
    rw [dif_neg (by exact fun he => h m (Nat.lt_succ_self m) he.symm)]
    exact ih (fun c hc => h c (by omega))

/-- Overwrite the slice of n entries starting at base with the values v 0,
.., v (n-1).  Models an element-wise kernel writing a contiguous slice; the
value function v reads the pre-call state, which is faithful because every
deepcpu kernel in the source writes each slice element exactly once. -/
def writeSlice (buf : ℕ → ℚ) (base n : ℕ) (v : ℕ → ℚ) : ℕ → ℚ :=
  fun i => if base ≤ i ∧ i < base + n then v (i - base) else buf i

theorem writeSlice_at (buf : ℕ → ℚ) (base n : ℕ) (v : ℕ → ℚ) (k : ℕ)
    (hk : k < n) : writeSlice buf base n v (base + k) = v k := by
  simp only [writeSlice]
  rw [if_pos ⟨Nat.le_add_right _ _, by omega⟩, Nat.add_sub_cancel_left]

theorem writeSlice_ne (buf : ℕ → ℚ) (base n : ℕ) (v : ℕ → ℚ) (i : ℕ)
    (h : i < base ∨ base + n ≤ i) : writeSlice buf base n v i = buf i := by
  simp only [writeSlice]
  rw [if_neg (by omega)]

/-- Disjointness of two distinct stride-n row slices. -/
theorem slice_disjoint {x y n j : ℕ} (h : x ≠ y) (hj : j < n) :
    x * n + j < y * n ∨ y * n + n ≤ x * n + j := by
  rcases Nat.lt_or_ge x y with hlt | hge
  · left
    calc x * n + j < x * n + n := by omega
    _ = (x + 1) * n := by ring
    _ ≤ y * n := Nat.mul_le_mul_right n (by omega)
  · right
    have hy : y < x := by omega
    calc y * n + n = (y + 1) * n := by ring
    _ ≤ x * n := Nat.mul_le_mul_right n (by omega)
    _ ≤ x * n + j := Nat.le_add_right _ _

/- ===================================================================
   LoadWeightsWithTranspose (deep_cpu_lstm.cc lines 693-721)
   =================================================================== -/

/-- Gate reordering used by LoadWeightsWithTranspose: destination gate slot
(fused order i,f,o,c) to source gate slot (ONNX order i,o,f,c).  In the
source this is the pairing of the constants i_out..g_out with i_in..g_in. -/
def gateSourceSlot : ℕ → ℕ
  | 0 => 0
  | 1 => 2
  | 2 => 1
  | _ => 3

/-- Body of the copy_weight_with_transpose lambda: for all c below dim0,
store src[gin * (dim0*dim1) + c * dim1 + row] at
dst[row * (4*dim0) + out * dim0 + c]. -/
def copyWeightWithTranspose (src : ℕ → ℚ) (dim0 dim1 row out gin : ℕ)
    (dst : ℕ → ℚ) : ℕ → ℚ :=
  writeMany (fun c => row * (4 * dim0) + out * dim0 + c)
    (fun c => src (gin * (dim0 * dim1) + c * dim1 + row)) dim0 dst

/-- One iteration of the row loop of LoadWeightsWithTranspose: the four
per-gate copies for a fixed row, in source order (i, f, o, c destinations
pulling from source slots 0, 2, 1, 3). -/
def loadWeightsRow (src : ℕ → ℚ) (dim0 dim1 row : ℕ) (dst : ℕ → ℚ) :
    ℕ → ℚ :=
  copyWeightWithTranspose src dim0 dim1 row 3 3
    (copyWeightWithTranspose src dim0 dim1 row 2 1
      (copyWeightWithTranspose src dim0 dim1 row 1 2
        (copyWeightWithTranspose src dim0 dim1 row 0 0 dst)))

/-- Row loop of LoadWeightsWithTranspose over rows 0..n-1. -/
def loadWeightsLoop (src : ℕ → ℚ) (dim0 dim1 : ℕ) (dst : ℕ → ℚ) :
    ℕ → (ℕ → ℚ)
  | 0 => dst
  | row + 1 => loadWeightsRow src dim0 dim1 row
      (loadWeightsLoop src dim0 dim1 dst row)

/-- UniDirectionalLstm LoadWeightsWithTranspose: re-pack a source slab of
four [dim0 x dim1] gate matrices (gate order i,o,f,c) into the fused
transposed layout (gate order i,f,o,c), iterating row over dim1. -/
def loadWeightsWithTranspose (src dst : ℕ → ℚ) (dim0 dim1 : ℕ) : ℕ → ℚ :=
  loadWeightsLoop src dim0 dim1 dst dim1

theorem copyWeightWithTranspose_ne (src : ℕ → ℚ) (dim0 dim1 row out gin i : ℕ)
    (dst : ℕ → ℚ) (h : ∀ c, c < dim0 → row * (4 * dim0) + out * dim0 + c ≠ i) :
    copyWeightWithTranspose src dim0 dim1 row out gin dst i = dst i :=
  writeMany_ne _ _ _ _ _ h

theorem loadWeightsRow_ne (src : ℕ → ℚ) (dim0 dim1 row i : ℕ) (dst : ℕ → ℚ)
    (h : i < row * (4 * dim0) ∨ row * (4 * dim0) + 4 * dim0 ≤ i) :
    loadWeightsRow src dim0 dim1 row dst i = dst i := by
  simp only [loadWeightsRow]
  rw [copyWeightWithTranspose_ne _ _ _ _ _ _ _ _ (fun c hc => by omega),
    copyWeightWithTranspose_ne _ _ _ _ _ _ _ _ (fun c hc => by omega),
    copyWeightWithTranspose_ne _ _ _ _ _ _ _ _ (fun c hc => by omega),
    copyWeightWithTranspose_ne _ _ _ _ _ _ _ _ (fun c hc => by omega)]

theorem loadWeightsRow_at (src : ℕ → ℚ) (dim0 dim1 row g c : ℕ) (dst : ℕ → ℚ)
    (hg : g < 4) (hc : c < dim0) :
    loadWeightsRow src dim0 dim1 row dst (row * (4 * dim0) + g * dim0 + c)
      = src (gateSourceSlot g * (dim0 * dim1) + c * dim1 + row) := by
  have hinj : ∀ g', g' < 4 →
      (∀ c', c' < dim0 → row * (4 * dim0) + g' * dim0 + c'
          = row * (4 * dim0) + g * dim0 + c → g' = g ∧ c' = c) := by
    intro g' hg' c' hc' he
    interval_cases g <;> interval_cases g' <;> omega
  have hat : ∀ g' gin' (dst' : ℕ → ℚ), g' = g →
      copyWeightWithTranspose src dim0 dim1 row g' gin' dst'
        (row * (4 * dim0) + g * dim0 + c)
      = src (gin' * (dim0 * dim1) + c * dim1 + row) := by
    intro g' gin' dst' he
    subst he
    exact writeMany_at _ _ _ _ _ hc
      (fun c' h1 h2 => ((hinj g' hg c' h1 h2).2))
  have hne : ∀ g' gin' (dst' : ℕ → ℚ), g' ≠ g →
      copyWeightWithTranspose src dim0 dim1 row g' gin' dst'
        (row * (4 * dim0) + g * dim0 + c) = dst' (row * (4 * dim0) + g * dim0 + c) := by
    intro g' gin' dst' hgne
    refine copyWeightWithTranspose_ne _ _ _ _ _ _ _ _ (fun c' hc' he => ?_)
    interval_cases g <;> first
      | (exact hgne (hinj g' (by omega) c' hc' he).1)
      | (rcases Nat.lt_or_ge g' 4 with h4 | h4
         · exact hgne (hinj g' h4 c' hc' he).1
         · have : 4 * dim0 ≤ g' * dim0 := Nat.mul_le_mul_right dim0 h4
           omega)
  simp only [loadWeightsRow]
  interval_cases g
  · rw [hne 3 3 _ (by omega), hne 2 1 _ (by omega), hne 1 2 _ (by omega),
      hat 0 0 _ rfl]
    rfl
  · rw [hne 3 3 _ (by omega), hne 2 1 _ (by omega), hat 1 2 _ rfl]
    rfl
  · rw [hne 3 3 _ (by omega), hat 2 1 _ rfl]
    rfl
  · rw [hat 3 3 _ rfl]
    rfl

theorem loadWeightsLoop_at (src : ℕ → ℚ) (dim0 dim1 row g c n : ℕ)
    (dst : ℕ → ℚ) (hrow : row < n) (hg : g < 4) (hc : c < dim0) :
    loadWeightsLoop src dim0 dim1 dst n (row * (4 * dim0) + g * dim0 + c)
      = src (gateSourceSlot g * (dim0 * dim1) + c * dim1 + row) := by
  induction n with
  | zero => omega
  | succ m ih =>
    simp only [loadWeightsLoop]
    by_cases hrm : row = m
    · subst hrm
      exact loadWeightsRow_at src dim0 dim1 row g c _ hg hc
    · have hrow' : row < m := by omega
      rw [loadWeightsRow_ne]
      · exact ih hrow'
      · left
        have h1 : (row + 1) * (4 * dim0) ≤ m * (4 * dim0) :=
          Nat.mul_le_mul_right _ (by omega)
        have h2 : (g + 1) * dim0 ≤ 4 * dim0 :=
          Nat.mul_le_mul_right dim0 (by omega)
        rw [Nat.succ_mul] at h1 h2
        omega

/-- Claim C5: LoadWeightsWithTranspose is a pure exact copy with no
accumulation: for every source slab of four per-gate [dim0 x dim1] matrices
in gate order i,o,f,c, the destination at flat index
row * (4*dim0) + g * dim0 + c equals the source element at
gateSourceSlot g * (dim0*dim1) + c * dim1 + row, where the destination
gate slots i=0, f=1, o=2, c=3 pull from source slots 0, 2, 1, 3. -/
theorem loadWeightsWithTranspose_C5 (src dst : ℕ → ℚ) (dim0 dim1 row g c : ℕ)
    (hrow : row < dim1) (hg : g < 4) (hc : c < dim0) :
    loadWeightsWithTranspose src dst dim0 dim1 (row * (4 * dim0) + g * dim0 + c)
      = src (gateSourceSlot g * (dim0 * dim1) + c * dim1 + row) :=
  loadWeightsLoop_at src dim0 dim1 row g c dim1 dst hrow hg hc

/-- Witness for claim C5: a concrete 2 x 3 slab, destination gate slot o
(slot 2) at row 1, column 1 pulls source gate slot 1 (source o), element
1 * 6 + 1 * 3 + 1 = 10 of the identity-valued source. -/
theorem loadWeightsWithTranspose_C5_witness :
    1 < 3 ∧ 2 < 4 ∧ 1 < 2 ∧
      loadWeightsWithTranspose (fun n => (n : ℚ)) (fun _ => 0) 2 3 13 = 10 := by
  refine ⟨by norm_num, by norm_num, by norm_num, ?_⟩
  have h := loadWeightsWithTranspose_C5 (fun n => (n : ℚ)) (fun _ => 0) 2 3 1 2 1
    (by norm_num) (by norm_num) (by norm_num)
  norm_num [gateSourceSlot] at h
  exact h

/- ===================================================================
   SetNumThreads (deep_cpu_lstm.cc lines 1201-1239)
   =================================================================== -/

/-- Input thread count of SetNumThreads as the source computes it: cap
threads at 16 first when hidden_size is at most 256, then cap at 24. -/
def lstmInputThreadCount (threads hiddenSize : ℕ) : ℕ :=
  let imt1 := if 16 < threads ∧ hiddenSize ≤ 256 then 16 else threads
  if 24 < imt1 then 24 else imt1

/-- Column-parallel hidden thread count of SetNumThreads as the source
computes it: the cascade of hidden_size band caps 2, 5, 7, 11. -/
def lstmHiddenCascade (threads hiddenSize : ℕ) : ℕ :=
  let h1 := if 2 < threads ∧ hiddenSize ≤ 128 then 2 else threads
  let h2 := if 5 < h1 ∧ hiddenSize ≤ 256 then 5 else h1
  let h3 := if 7 < h2 ∧ hiddenSize ≤ 512 then 7 else h2
  if 11 < h3 ∧ hiddenSize ≤ 1024 then 11 else h3

/-- UniDirectionalLstm SetNumThreads, as the source computes it: threads is
hardware concurrency minus one clamped below at 1; the mode is
batch-parallel when batch_size exceeds 4 or batch_size is at least 2 with
hidden_size at most 256, in which case the hidden thread count is threads,
and otherwise the hidden thread count is the band-cap cascade.  Returns
(input_num_threads, hidden_num_threads, batch_parallel). -/
def setNumThreads (hw batchSize hiddenSize : ℕ) : ℕ × ℕ × Bool :=
  let threads0 := hw - 1
  let threads := if threads0 < 1 then 1 else threads0
  let imt := lstmInputThreadCount threads hiddenSize
  if 4 < batchSize ∨ (2 ≤ batchSize ∧ hiddenSize ≤ 256) then
    (imt, threads, true)
  else
    (imt, lstmHiddenCascade threads hiddenSize, false)

/-- Modelled from the spec: the thread-count heuristic as the spec words it
(claim C8), with threads = max(1, hw - 1), input_num_threads = min(threads,
24) reduced to 16 when it exceeds 16 and hidden_size is at most 256, and
column-parallel hidden_num_threads = min(threads, cap) with the band caps. -/
def setNumThreadsSpec (hw batchSize hiddenSize : ℕ) : ℕ × ℕ × Bool :=
  let threads := max 1 (hw - 1)
  let imt0 := min threads 24
  let imt := if 16 < imt0 ∧ hiddenSize ≤ 256 then 16 else imt0
  if 4 < batchSize ∨ (2 ≤ batchSize ∧ hiddenSize ≤ 256) then
    (imt, threads, true)
  else
    let cap := if hiddenSize ≤ 128 then 2
      else if hiddenSize ≤ 256 then 5
      else if hiddenSize ≤ 512 then 7
      else if hiddenSize ≤ 1024 then 11
      else threads
    (imt, min threads cap, false)

theorem lstmInputThreadCount_minEq (t h : ℕ) :
    lstmInputThreadCount t h
      = if 16 < min t 24 ∧ h ≤ 256 then 16 else min t 24 := by
  simp only [lstmInputThreadCount]
  by_cases hh : h ≤ 256 <;> split_ifs <;> omega

theorem lstmHiddenCascade_minEq (t h : ℕ) :
    lstmHiddenCascade t h
      = min t (if h ≤ 128 then 2
          else if h ≤ 256 then 5
          else if h ≤ 512 then 7
          else if h ≤ 1024 then 11
          else t) := by
  simp only [lstmHiddenCascade]
  by_cases h1 : h ≤ 128 <;> by_cases h2 : h ≤ 256 <;> by_cases h3 : h ≤ 512
    <;> by_cases h4 : h ≤ 1024 <;> simp only [h1, h2, h3, h4, if_true,
      if_false, and_true, and_false] <;> (try split_ifs) <;> omega

/-- Claim C8: SetNumThreads is a pure function of hardware concurrency,
batch_size and hidden_size, and agrees with the formulation in the spec at
every input; in particular applying the 16 cap before the 24 cap (source)
or after it (spec) yields the same input thread count, and the band-cap
cascade equals min(threads, cap). -/
theorem setNumThreads_C8 (hw batchSize hiddenSize : ℕ) :
    setNumThreads hw batchSize hiddenSize
      = setNumThreadsSpec hw batchSize hiddenSize := by
  simp only [setNumThreads, setNumThreadsSpec, lstmInputThreadCount_minEq,
    lstmHiddenCascade_minEq]
  have ht : (if hw - 1 < 1 then 1 else hw - 1) = max 1 (hw - 1) := by
    split_ifs <;> omega
  rw [ht]

/- ===================================================================
   DeepCpuLstmOp::Compute element type dispatch
   (deep_cpu_lstm.cc lines 308-326)
   =================================================================== -/

/-- Element types the kernel registration admits for input X. -/
inductive LstmDataType
  | float32
  | float64
  | otherType
deriving DecidableEq

/-- Errors surfaced by the operator entry point.  Modelled from the spec:
LOTUS_NOT_IMPLEMENTED raises a NotImplemented status and LOTUS_THROW a
generic failure; on any error the operator returns it and produces no
outputs (spec section 7). -/
inductive LstmOpError
  | notImplemented
  | invalidDataType
deriving DecidableEq

/-- DeepCpuLstmOp Compute: dispatch on the element type of input X.  The
float path runs ComputeImpl of float; the double path is acknowledged but
not implemented and raises NotImplemented before any output is produced;
any other type raises a generic failure. -/
def deepCpuLstmOpCompute {alpha : Type} (computeImplFloat : Unit → alpha)
    (dt : LstmDataType) : Except LstmOpError alpha :=
  match dt with
  | .float32 => .ok (computeImplFloat ())
  | .float64 => .error .notImplemented
  | .otherType => .error .invalidDataType

/-- Claim C9: an invocation whose input X has element type double fails
with NotImplemented and produces no outputs (the result is an error, not a
value), and an invocation with element type float proceeds to the float
implementation. -/
theorem deepCpuLstmOpCompute_C9 {alpha : Type} (computeImplFloat : Unit → alpha) :
    deepCpuLstmOpCompute computeImplFloat .float64
        = .error .notImplemented
      ∧ deepCpuLstmOpCompute computeImplFloat .float32
        = .ok (computeImplFloat ()) :=
  ⟨rfl, rfl⟩

/- ===================================================================
   LoadBias, LoadPeepholeWeights, LoadAllWeights and the constructor
   (deep_cpu_lstm.cc lines 553-602, 662-690, 723-789)
   =================================================================== -/

/-- Body of the copy_fused_bias lambda of LoadBias: entry j of the output
is the Wb value at j + offset plus the Rb value one 4*H gap further. -/
def copyFusedBias (H off : ℕ) (wbrb : ℕ → ℚ) : ℕ → ℚ :=
  fun j => wbrb (j + off) + wbrb (j + off + 4 * H)

/-- The four fused bias vectors produced by LoadBias, in the source order
of the copy_fused_bias calls: offsets 0, H, 2*H, 3*H feed bias_WRi,
bias_WRo, bias_WRf, bias_WRc. -/
structure FusedBias where
  wri : ℕ → ℚ
  wro : ℕ → ℚ
  wrf : ℕ → ℚ
  wrc : ℕ → ℚ

/-- UniDirectionalLstm LoadBias: sum Wb and Rb per gate. -/
def loadBias (H : ℕ) (wbrb : ℕ → ℚ) : FusedBias :=
  { wri := copyFusedBias H 0 wbrb
    wro := copyFusedBias H H wbrb
    wrf := copyFusedBias H (2 * H) wbrb
    wrc := copyFusedBias H (3 * H) wbrb }

/-- The three peephole spans produced by LoadPeepholeWeights under
LSTM_NO_PEEPHOLE_COPY: subspans of the peephole slab at offsets 0, H, 2*H
aliased as peephole_i, peephole_o, peephole_f. -/
structure PeepholeSpans where
  pi_span : ℕ → ℚ
  po_span : ℕ → ℚ
  pf_span : ℕ → ℚ

/-- UniDirectionalLstm LoadPeepholeWeights. -/
def loadPeepholeWeights (H : ℕ) (peephole_weights : ℕ → ℚ) : PeepholeSpans :=
  { pi_span := fun k => peephole_weights (0 * H + k)
    po_span := fun k => peephole_weights (1 * H + k)
    pf_span := fun k => peephole_weights (2 * H + k) }

/-- Result of loading all weights: the two fused transposed weight slabs,
the optional fused biases and the optional peephole spans. -/
structure LoadedWeights where
  weightsIfoc : ℕ → ℚ
  recurrentWeightsIfoc : ℕ → ℚ
  biases : Option FusedBias
  peepholes : Option PeepholeSpans

/-- UniDirectionalLstm LoadAllWeights as DEFINED at lines 662-690: its
third parameter is peephole_weights and its fourth is bias (the order in
the class declaration at lines 229-232 lists bias third, but the
definition and the construction-site call agree, so the binding is by this
definition order).  Empty spans are modelled as none. -/
def loadAllWeights (H inputSize : ℕ) (wDst rDst : ℕ → ℚ)
    (input_weights recurrent_weights : ℕ → ℚ)
    (peephole_weights bias : Option (ℕ → ℚ)) : LoadedWeights :=
  { weightsIfoc := loadWeightsWithTranspose input_weights wDst H inputSize
    recurrentWeightsIfoc := loadWeightsWithTranspose recurrent_weights rDst H H
    biases := bias.map (loadBias H)
    peepholes := peephole_weights.map (loadPeepholeWeights H) }

/-- The weight-loading part of the UniDirectionalLstm constructor: with its
own parameters in declaration order (input_weights, recurrent_weights,
bias, peephole_weights), line 601 invokes LoadAllWeights with
peephole_weights third and bias fourth. -/
def uniDirectionalLstmLoad (H inputSize : ℕ) (wDst rDst : ℕ → ℚ)
    (input_weights recurrent_weights : ℕ → ℚ)
    (bias peephole_weights : Option (ℕ → ℚ)) : LoadedWeights :=
  loadAllWeights H inputSize wDst rDst input_weights recurrent_weights
    peephole_weights bias

/-- Claim C6: despite the declaration-order mismatch, at runtime the
constructor's bias span is the one summed into the fused bias vectors
(bias_WRi from gate offset 0, bias_WRo from H, bias_WRf from 2*H, bias_WRc
from 3*H, each Wb plus Rb at gap 4*H) and the constructor's peephole span
is the one aliased as the three peephole slices; bias values never land in
peephole buffers or vice versa. -/
theorem uniDirectionalLstmLoad_C6 (H inputSize k : ℕ) (wDst rDst : ℕ → ℚ)
    (iw rw bv pv : ℕ → ℚ) (hk : k < H) :
    (uniDirectionalLstmLoad H inputSize wDst rDst iw rw (some bv)
          (some pv)).biases.map
          (fun bb => (bb.wri k, bb.wro k, bb.wrf k, bb.wrc k))
        = some (bv k + bv (k + 4 * H), bv (k + H) + bv (k + H + 4 * H),
            bv (k + 2 * H) + bv (k + 2 * H + 4 * H),
            bv (k + 3 * H) + bv (k + 3 * H + 4 * H))
      ∧ (uniDirectionalLstmLoad H inputSize wDst rDst iw rw (some bv)
          (some pv)).peepholes.map
          (fun ps => (ps.pi_span k, ps.po_span k, ps.pf_span k))
        = some (pv k, pv (H + k), pv (2 * H + k)) := by
  constructor
  · simp [uniDirectionalLstmLoad, loadAllWeights, loadBias, copyFusedBias]
  · simp [uniDirectionalLstmLoad, loadAllWeights, loadPeepholeWeights]

/-- Witness for claim C6 at H = 2, k = 1, with the bias slab the identity
function and the peephole slab the identity shifted by 100. -/
theorem uniDirectionalLstmLoad_C6_witness :
    1 < 2 ∧
      (uniDirectionalLstmLoad 2 3 (fun _ => 0) (fun _ => 0)
          (fun _ => 0) (fun _ => 0) (some fun n => (n : ℚ))
          (some fun n => (n : ℚ) + 100)).biases.map
          (fun bb => (bb.wri 1, bb.wro 1, bb.wrf 1, bb.wrc 1))
        = some ((10 : ℚ), 14, 18, 22) ∧
      (uniDirectionalLstmLoad 2 3 (fun _ => 0) (fun _ => 0)
          (fun _ => 0) (fun _ => 0) (some fun n => (n : ℚ))
          (some fun n => (n : ℚ) + 100)).peepholes.map
          (fun ps => (ps.pi_span 1, ps.po_span 1, ps.pf_span 1))
        = some ((101 : ℚ), 103, 105) := by
  have h := uniDirectionalLstmLoad_C6 2 3 1 (fun _ => 0) (fun _ => 0)
    (fun _ => 0) (fun _ => 0) (fun n => (n : ℚ)) (fun n => (n : ℚ) + 100)
    (by norm_num)
  refine ⟨by norm_num, ?_, ?_⟩
  · have h1 := h.1
    norm_num at h1 ⊢
    exact h1
  · have h2 := h.2
    norm_num at h2 ⊢
    exact h2

/- ===================================================================
   GateComputations (deep_cpu_lstm.cc lines 1073-1197)
   =================================================================== -/

/-- Modelled from the spec: clipping bounds a value in [-clip, +clip] and
a non-positive or unset clip means no clipping (spec sections 4.8 and 6). -/
def clipOp (clip x : ℚ) : ℚ :=
  if 0 < clip then max (-clip) (min clip x) else x

/-- Modelled from the spec: the clip_with_bias_ptr function pointer is
deepcpu clip_add_bias when a bias is in use and deepcpu clip_ignore_bias
otherwise; it clips the value and then adds the gate bias entry. -/
def clipWithBiasPtr (useBias : Bool) (clip : ℚ) (bias : ℕ → ℚ) (k : ℕ)
    (x : ℚ) : ℚ :=
  if useBias then clipOp clip x + bias k else clipOp clip x

/-- Configuration of one UniDirectionalLstm instance as the gate kernel
sees it: sizes, flags, clip, the resolved activation functions f, g, h and
the loaded per-gate peephole and fused bias vectors. -/
structure GateCfg where
  hiddenSize : ℕ
  usePeepholes : Bool
  useBias : Bool
  inputForget : Bool
  clip : ℚ
  fAct : ℚ → ℚ
  gAct : ℚ → ℚ
  hAct : ℚ → ℚ
  peepholeI : ℕ → ℚ
  peepholeO : ℕ → ℚ
  peepholeF : ℕ → ℚ
  biasWRi : ℕ → ℚ
  biasWRo : ℕ → ℚ
  biasWRf : ℕ → ℚ
  biasWRc : ℕ → ℚ

/-- The four buffers GateComputations mutates: the step slice view of
output_ifog (iterator out), the batched previous cell state (iterator
C_prev), the clipped-cell scratch (iterator C_prev_clipped) and the
destination of H_t (iterator batched_output: the step slice of Y when a
sequence is emitted, else the final hidden state). -/
structure GateBuffers where
  out : ℕ → ℚ
  cPrev : ℕ → ℚ
  clipped : ℕ → ℚ
  output : ℕ → ℚ

/-- Input-gate block of GateComputations: optional peephole product with
the PREVIOUS cell value accumulated into the i slice (deepcpu
elementwise_product), then clip and bias, then the f activation. -/
def lstmInputGateStage (cfg : GateCfg) (pi pC : ℕ) (st : GateBuffers) :
    GateBuffers :=
  let s1 := if cfg.usePeepholes then
      { st with out := (writeSlice st.out pi cfg.hiddenSize
          (fun k => st.out (pi + k) + st.cPrev (pC + k) * cfg.peepholeI k)) }
    else st
  let s2 := { s1 with out := (writeSlice s1.out pi cfg.hiddenSize
      (fun k => clipWithBiasPtr cfg.useBias cfg.clip cfg.biasWRi k
        (s1.out (pi + k)))) }
  { s2 with out := (writeSlice s2.out pi cfg.hiddenSize
      (fun k => cfg.fAct (s2.out (pi + k)))) }

/-- Forget-gate block of GateComputations: when input_forget is set the f
slice is written as one minus the already-activated i slice with no
peephole, clip, bias or activation; otherwise the same peephole (with the
PREVIOUS cell value), clip, bias and f-activation sequence as the input
gate, using peephole_f and bias_WRf. -/
def lstmForgetGateStage (cfg : GateCfg) (pi pf pC : ℕ) (st : GateBuffers) :
    GateBuffers :=
  if cfg.inputForget then
    { st with out := (writeSlice st.out pf cfg.hiddenSize
        (fun k => 1 - st.out (pi + k))) }
  else
    let s1 := if cfg.usePeepholes then
        { st with out := (writeSlice st.out pf cfg.hiddenSize
            (fun k => st.out (pf + k) + st.cPrev (pC + k) * cfg.peepholeF k)) }
      else st
    let s2 := { s1 with out := (writeSlice s1.out pf cfg.hiddenSize
        (fun k => clipWithBiasPtr cfg.useBias cfg.clip cfg.biasWRf k
          (s1.out (pf + k)))) }
    { s2 with out := (writeSlice s2.out pf cfg.hiddenSize
        (fun k => cfg.fAct (s2.out (pf + k)))) }

/-- Block-G (cell candidate) stage: clip and bias with bias_WRc on the c
slice, then the g activation. -/
def lstmCellGateStage (cfg : GateCfg) (pc : ℕ) (st : GateBuffers) :
    GateBuffers :=
  let s1 := { st with out := (writeSlice st.out pc cfg.hiddenSize
      (fun k => clipWithBiasPtr cfg.useBias cfg.clip cfg.biasWRc k
        (st.out (pc + k)))) }
  { s1 with out := (writeSlice s1.out pc cfg.hiddenSize
      (fun k => cfg.gAct (s1.out (pc + k)))) }

/-- Merge stage: deepcpu merge_lstm_gates_to_memory with pC_cur equal to
pCprev, so the cell buffer row is updated in place to
f_t * C_prev + i_t * c_bar.  Modelled from the spec for the external
merge kernel (spec section 4.8, merge_lstm_gates_to_memory). -/
def lstmMergeStage (pi pf pc pC H : ℕ) (st : GateBuffers) : GateBuffers :=
  { st with cPrev := (writeSlice st.cPrev pC H
      (fun k => st.out (pf + k) * st.cPrev (pC + k)
        + st.out (pi + k) * st.out (pc + k))) }

/-- Output-gate block of GateComputations: the peephole product reads the
cell buffer row AFTER the merge stage, i.e. the CURRENT cell value,
because pC_cur aliases pCprev_hidden_size; then clip and bias with
bias_WRo and the f activation. -/
def lstmOutputGateStage (cfg : GateCfg) (po pC : ℕ) (st : GateBuffers) :
    GateBuffers :=
  let s1 := if cfg.usePeepholes then
      { st with out := (writeSlice st.out po cfg.hiddenSize
          (fun k => st.out (po + k) + st.cPrev (pC + k) * cfg.peepholeO k)) }
    else st
  let s2 := { s1 with out := (writeSlice s1.out po cfg.hiddenSize
      (fun k => clipWithBiasPtr cfg.useBias cfg.clip cfg.biasWRo k
        (s1.out (po + k)))) }
  { s2 with out := (writeSlice s2.out po cfg.hiddenSize
      (fun k => cfg.fAct (s2.out (po + k)))) }

/-- Final stage of one gate-kernel row: the h merge function writes the
clipped-cell temporary and H_t = o_t times hAct of the current cell into
the batched output row.  Modelled from the spec for the external
activation_h kernel: the clipped buffer receives a temporary copy of the
current cell value and is never read back (source comment lines
1173-1176); the H_t formula is spec section 4.8. -/
def lstmHiddenStage (cfg : GateCfg) (po pC pClip pH : ℕ)
    (st : GateBuffers) : GateBuffers :=
  let s1 := { st with clipped := (writeSlice st.clipped pClip cfg.hiddenSize
      (fun k => st.cPrev (pC + k))) }
  { s1 with output := (writeSlice s1.output pH cfg.hiddenSize
      (fun k => s1.out (po + k) * cfg.hAct (s1.cPrev (pC + k)))) }

/-- One active row of GateComputations (lines 1097-1185): raw gate slice
pointers pi, pf, po, pc at stride hidden_size inside the row's 4*H ifog
slice, the previous-cell row pointer, and the blocks in source order. -/
def gateRow (cfg : GateCfg) (outBase cPrevBase clippedBase outputBase
    row b : ℕ) (st : GateBuffers) : GateBuffers :=
  let H := cfg.hiddenSize
  let pi := outBase + b * (4 * H)
  let pf := pi + H
  let po := pf + H
  let pc := po + H
  let pC := cPrevBase + b * H
  let pClip := clippedBase + b * H
  let pH := outputBase + row * H + b * H
  lstmHiddenStage cfg po pC pClip pH
    (lstmOutputGateStage cfg po pC
      (lstmMergeStage pi pf pc pC H
        (lstmCellGateStage cfg pc
          (lstmForgetGateStage cfg pi pf pC
            (lstmInputGateStage cfg pi pC st)))))

/-- One iteration of the GateComputations batch loop (lines 1087-1095
guard plus the active-row body): a row whose sequence length is exhausted
1) skips all gate arithmetic, 2) if a sequence is being emitted has zeros
written to its slice of the step output, and 3) is otherwise untouched. -/
def gateRowOrSkip (cfg : GateCfg) (outBase cPrevBase clippedBase
    outputBase : ℕ) (seqLens : ℕ → ℕ) (minSeq step row : ℕ)
    (outputSequence : Bool) (b : ℕ) (st : GateBuffers) : GateBuffers :=
  if minSeq ≤ step ∧ seqLens (row + b) ≤ step then
    if outputSequence then
      { st with output := (writeSlice st.output
          (outputBase + (row + b) * cfg.hiddenSize) cfg.hiddenSize
          (fun _ => 0)) }
    else st
  else
    gateRow cfg outBase cPrevBase clippedBase outputBase row b st

/-- GateComputations: the batch loop over local_fused_hidden_rows rows. -/
def gateComputations (cfg : GateCfg) (outBase cPrevBase clippedBase
    outputBase : ℕ) (seqLens : ℕ → ℕ) (minSeq step row : ℕ)
    (outputSequence : Bool) : ℕ → GateBuffers → GateBuffers
  | 0, st => st
  | b + 1, st => gateRowOrSkip cfg outBase cPrevBase clippedBase outputBase
      seqLens minSeq step row outputSequence b
      (gateComputations cfg outBase cPrevBase clippedBase outputBase
        seqLens minSeq step row outputSequence b st)

theorem lstmInputGateStage_out_at (cfg : GateCfg) (pi pC k : ℕ)
    (st : GateBuffers) (hk : k < cfg.hiddenSize) :
    (lstmInputGateStage cfg pi pC st).out (pi + k)
      = cfg.fAct (clipWithBiasPtr cfg.useBias cfg.clip cfg.biasWRi k
          (st.out (pi + k) + (if cfg.usePeepholes = true
            then st.cPrev (pC + k) * cfg.peepholeI k else 0))) := by
  cases hp : cfg.usePeepholes <;>
    simp only [lstmInputGateStage, hp, Bool.false_eq_true, if_false, if_true] <;>
    rw [writeSlice_at _ _ _ _ _ hk, writeSlice_at _ _ _ _ _ hk]
  · rw [add_zero]
  · rw [writeSlice_at _ _ _ _ _ hk]

theorem lstmInputGateStage_out_ne (cfg : GateCfg) (pi pC i : ℕ)
    (st : GateBuffers) (hi : i < pi ∨ pi + cfg.hiddenSize ≤ i) :
    (lstmInputGateStage cfg pi pC st).out i = st.out i := by
  cases hp : cfg.usePeepholes <;>
    simp only [lstmInputGateStage, hp, Bool.false_eq_true, if_false, if_true] <;>
    rw [writeSlice_ne _ _ _ _ _ hi, writeSlice_ne _ _ _ _ _ hi]
  rw [writeSlice_ne _ _ _ _ _ hi]

theorem lstmInputGateStage_cPrev (cfg : GateCfg) (pi pC : ℕ)
    (st : GateBuffers) :
    (lstmInputGateStage cfg pi pC st).cPrev = st.cPrev := by
  cases hp : cfg.usePeepholes <;> simp [lstmInputGateStage, hp]

theorem lstmInputGateStage_clipped (cfg : GateCfg) (pi pC : ℕ)
    (st : GateBuffers) :
    (lstmInputGateStage cfg pi pC st).clipped = st.clipped := by
  cases hp : cfg.usePeepholes <;> simp [lstmInputGateStage, hp]

theorem lstmInputGateStage_output (cfg : GateCfg) (pi pC : ℕ)
    (st : GateBuffers) :
    (lstmInputGateStage cfg pi pC st).output = st.output := by
  cases hp : cfg.usePeepholes <;> simp [lstmInputGateStage, hp]

theorem lstmForgetGateStage_out_at (cfg : GateCfg) (pi pf pC k : ℕ)
    (st : GateBuffers) (hk : k < cfg.hiddenSize) :
    (lstmForgetGateStage cfg pi pf pC st).out (pf + k)
      = if cfg.inputForget = true then 1 - st.out (pi + k)
        else cfg.fAct (clipWithBiasPtr cfg.useBias cfg.clip cfg.biasWRf k
          (st.out (pf + k) + (if cfg.usePeepholes = true
            then st.cPrev (pC + k) * cfg.peepholeF k else 0))) := by
  cases hif : cfg.inputForget
  · simp only [lstmForgetGateStage, hif, Bool.false_eq_true, if_false]
    cases hp : cfg.usePeepholes <;>
      simp only [hp, Bool.false_eq_true, if_false, if_true] <;>
      rw [writeSlice_at _ _ _ _ _ hk, writeSlice_at _ _ _ _ _ hk]
    · rw [add_zero]
    · rw [writeSlice_at _ _ _ _ _ hk]
  · simp only [lstmForgetGateStage, hif, if_true]
    rw [writeSlice_at _ _ _ _ _ hk]

theorem lstmForgetGateStage_out_ne (cfg : GateCfg) (pi pf pC i : ℕ)
    (st : GateBuffers) (hi : i < pf ∨ pf + cfg.hiddenSize ≤ i) :
    (lstmForgetGateStage cfg pi pf pC st).out i = st.out i := by
  cases hif : cfg.inputForget
  · simp only [lstmForgetGateStage, hif, Bool.false_eq_true, if_false]
    cases hp : cfg.usePeepholes <;>
      simp only [hp, Bool.false_eq_true, if_false, if_true] <;>
      rw [writeSlice_ne _ _ _ _ _ hi, writeSlice_ne _ _ _ _ _ hi]
    rw [writeSlice_ne _ _ _ _ _ hi]
  · simp only [lstmForgetGateStage, hif, if_true]
    rw [writeSlice_ne _ _ _ _ _ hi]

theorem lstmForgetGateStage_cPrev (cfg : GateCfg) (pi pf pC : ℕ)
    (st : GateBuffers) :
    (lstmForgetGateStage cfg pi pf pC st).cPrev = st.cPrev := by
  cases hif : cfg.inputForget <;> cases hp : cfg.usePeepholes <;>
    simp [lstmForgetGateStage, hif, hp]

theorem lstmForgetGateStage_clipped (cfg : GateCfg) (pi pf pC : ℕ)
    (st : GateBuffers) :
    (lstmForgetGateStage cfg pi pf pC st).clipped = st.clipped := by
  cases hif : cfg.inputForget <;> cases hp : cfg.usePeepholes <;>
    simp [lstmForgetGateStage, hif, hp]

theorem lstmForgetGateStage_output (cfg : GateCfg) (pi pf pC : ℕ)
    (st : GateBuffers) :
    (lstmForgetGateStage cfg pi pf pC st).output = st.output := by
  cases hif : cfg.inputForget <;> cases hp : cfg.usePeepholes <;>
    simp [lstmForgetGateStage, hif, hp]

theorem lstmCellGateStage_out_at (cfg : GateCfg) (pc k : ℕ)
    (st : GateBuffers) (hk : k < cfg.hiddenSize) :
    (lstmCellGateStage cfg pc st).out (pc + k)
      = cfg.gAct (clipWithBiasPtr cfg.useBias cfg.clip cfg.biasWRc k
          (st.out (pc + k))) := by
  simp only [lstmCellGateStage]
  rw [writeSlice_at _ _ _ _ _ hk, writeSlice_at _ _ _ _ _ hk]

theorem lstmCellGateStage_out_ne (cfg : GateCfg) (pc i : ℕ)
    (st : GateBuffers) (hi : i < pc ∨ pc + cfg.hiddenSize ≤ i) :
    (lstmCellGateStage cfg pc st).out i = st.out i := by
  simp only [lstmCellGateStage]
  rw [writeSlice_ne _ _ _ _ _ hi, writeSlice_ne _ _ _ _ _ hi]

theorem lstmCellGateStage_cPrev (cfg : GateCfg) (pc : ℕ) (st : GateBuffers) :
    (lstmCellGateStage cfg pc st).cPrev = st.cPrev := rfl

theorem lstmCellGateStage_clipped (cfg : GateCfg) (pc : ℕ)
    (st : GateBuffers) :
    (lstmCellGateStage cfg pc st).clipped = st.clipped := rfl

theorem lstmCellGateStage_output (cfg : GateCfg) (pc : ℕ)
    (st : GateBuffers) :
    (lstmCellGateStage cfg pc st).output = st.output := rfl

theorem lstmMergeStage_cPrev_at (pi pf pc pC H k : ℕ) (st : GateBuffers)
    (hk : k < H) :
    (lstmMergeStage pi pf pc pC H st).cPrev (pC + k)
      = st.out (pf + k) * st.cPrev (pC + k)
        + st.out (pi + k) * st.out (pc + k) := by
  simp only [lstmMergeStage]
  rw [writeSlice_at _ _ _ _ _ hk]

theorem lstmMergeStage_cPrev_ne (pi pf pc pC H i : ℕ) (st : GateBuffers)
    (hi : i < pC ∨ pC + H ≤ i) :
    (lstmMergeStage pi pf pc pC H st).cPrev i = st.cPrev i := by
  simp only [lstmMergeStage]
  rw [writeSlice_ne _ _ _ _ _ hi]

theorem lstmMergeStage_out (pi pf pc pC H : ℕ) (st : GateBuffers) :
    (lstmMergeStage pi pf pc pC H st).out = st.out := rfl

theorem lstmMergeStage_clipped (pi pf pc pC H : ℕ) (st : GateBuffers) :
    (lstmMergeStage pi pf pc pC H st).clipped = st.clipped := rfl

theorem lstmMergeStage_output (pi pf pc pC H : ℕ) (st : GateBuffers) :
    (lstmMergeStage pi pf pc pC H st).output = st.output := rfl

theorem lstmOutputGateStage_out_at (cfg : GateCfg) (po pC k : ℕ)
    (st : GateBuffers) (hk : k < cfg.hiddenSize) :
    (lstmOutputGateStage cfg po pC st).out (po + k)
      = cfg.fAct (clipWithBiasPtr cfg.useBias cfg.clip cfg.biasWRo k
          (st.out (po + k) + (if cfg.usePeepholes = true
            then st.cPrev (pC + k) * cfg.peepholeO k else 0))) := by
  cases hp : cfg.usePeepholes <;>
    simp only [lstmOutputGateStage, hp, Bool.false_eq_true, if_false, if_true] <;>
    rw [writeSlice_at _ _ _ _ _ hk, writeSlice_at _ _ _ _ _ hk]
  · rw [add_zero]
  · rw [writeSlice_at _ _ _ _ _ hk]

theorem lstmOutputGateStage_out_ne (cfg : GateCfg) (po pC i : ℕ)
    (st : GateBuffers) (hi : i < po ∨ po + cfg.hiddenSize ≤ i) :
    (lstmOutputGateStage cfg po pC st).out i = st.out i := by
  cases hp : cfg.usePeepholes <;>
    simp only [lstmOutputGateStage, hp, Bool.false_eq_true, if_false, if_true] <;>
    rw [writeSlice_ne _ _ _ _ _ hi, writeSlice_ne _ _ _ _ _ hi]
  rw [writeSlice_ne _ _ _ _ _ hi]

theorem lstmOutputGateStage_cPrev (cfg : GateCfg) (po pC : ℕ)
    (st : GateBuffers) :
    (lstmOutputGateStage cfg po pC st).cPrev = st.cPrev := by
  cases hp : cfg.usePeepholes <;> simp [lstmOutputGateStage, hp]

theorem lstmOutputGateStage_clipped (cfg : GateCfg) (po pC : ℕ)
    (st : GateBuffers) :
    (lstmOutputGateStage cfg po pC st).clipped = st.clipped := by
  cases hp : cfg.usePeepholes <;> simp [lstmOutputGateStage, hp]

theorem lstmOutputGateStage_output (cfg : GateCfg) (po pC : ℕ)
    (st : GateBuffers) :
    (lstmOutputGateStage cfg po pC st).output = st.output := by
  cases hp : cfg.usePeepholes <;> simp [lstmOutputGateStage, hp]

theorem lstmHiddenStage_output_at (cfg : GateCfg) (po pC pClip pH k : ℕ)
    (st : GateBuffers) (hk : k < cfg.hiddenSize) :
    (lstmHiddenStage cfg po pC pClip pH st).output (pH + k)
      = st.out (po + k) * cfg.hAct (st.cPrev (pC + k)) := by
  simp only [lstmHiddenStage]
  rw [writeSlice_at _ _ _ _ _ hk]

theorem lstmHiddenStage_output_ne (cfg : GateCfg) (po pC pClip pH i : ℕ)
    (st : GateBuffers) (hi : i < pH ∨ pH + cfg.hiddenSize ≤ i) :
    (lstmHiddenStage cfg po pC pClip pH st).output i = st.output i := by
  simp only [lstmHiddenStage]
  rw [writeSlice_ne _ _ _ _ _ hi]

theorem lstmHiddenStage_out (cfg : GateCfg) (po pC pClip pH : ℕ)
    (st : GateBuffers) :
    (lstmHiddenStage cfg po pC pClip pH st).out = st.out := rfl

theorem lstmHiddenStage_cPrev (cfg : GateCfg) (po pC pClip pH : ℕ)
    (st : GateBuffers) :
    (lstmHiddenStage cfg po pC pClip pH st).cPrev = st.cPrev := rfl

theorem lstmHiddenStage_clipped_ne (cfg : GateCfg) (po pC pClip pH i : ℕ)
    (st : GateBuffers) (hi : i < pClip ∨ pClip + cfg.hiddenSize ≤ i) :
    (lstmHiddenStage cfg po pC pClip pH st).clipped i = st.clipped i := by
  simp only [lstmHiddenStage]
  rw [writeSlice_ne _ _ _ _ _ hi]

/-- Claim C3: for a batch row b whose sequence length is exhausted at the
current step (the guard at line 1088; the min_sequence_length conjunct is
implied whenever min_sequence_length is at most the row's length), the
gate kernel performs no gate arithmetic for that row: the ifog gate
slices, the previous cell buffer and the clipped scratch are untouched,
zeros are written to the row's slice of Y at this step when a sequence
output is emitted, and every other index of the output buffer, in
particular the previous hidden state, is untouched. -/
theorem gateRowOrSkip_C3 (cfg : GateCfg) (ob cb lb pb : ℕ) (sl : ℕ → ℕ)
    (minSeq step row b k i : ℕ) (oS : Bool) (st : GateBuffers)
    (hMask : minSeq ≤ step ∧ sl (row + b) ≤ step)
    (hk : k < cfg.hiddenSize)
    (hi : i < pb + (row + b) * cfg.hiddenSize
      ∨ pb + (row + b) * cfg.hiddenSize + cfg.hiddenSize ≤ i) :
    (gateRowOrSkip cfg ob cb lb pb sl minSeq step row oS b st).out = st.out
      ∧ (gateRowOrSkip cfg ob cb lb pb sl minSeq step row oS b st).cPrev
        = st.cPrev
      ∧ (gateRowOrSkip cfg ob cb lb pb sl minSeq step row oS b st).clipped
        = st.clipped
      ∧ (oS = true →
          (gateRowOrSkip cfg ob cb lb pb sl minSeq step row oS b st).output
            (pb + (row + b) * cfg.hiddenSize + k) = 0)
      ∧ (gateRowOrSkip cfg ob cb lb pb sl minSeq step row oS b st).output i
        = st.output i := by
  cases hOS : oS
  · unfold gateRowOrSkip
    rw [if_pos hMask, if_neg (by simp)]
    exact ⟨rfl, rfl, rfl, by simp, rfl⟩
  · unfold gateRowOrSkip
    rw [if_pos hMask, if_pos rfl]
    refine ⟨rfl, rfl, rfl, fun _ => ?_, ?_⟩
    · show writeSlice st.output (pb + (row + b) * cfg.hiddenSize)
        cfg.hiddenSize (fun _ => 0) (pb + (row + b) * cfg.hiddenSize + k) = 0
      exact writeSlice_at _ _ _ _ _ hk
    · show writeSlice st.output (pb + (row + b) * cfg.hiddenSize)
        cfg.hiddenSize (fun _ => 0) i = st.output i
      exact writeSlice_ne _ _ _ _ _ hi

/-- Claim C7: when input_forget is 1, for every step, every batch row not
masked by its sequence length and every hidden index k, the forget gate
value stored in the f slice equals one minus the input gate value stored
in the i slice, exactly as computed: the f slice is written by that single
subtraction, with no peephole, clip, bias or activation applied to the
forget-gate pre-activation. -/
theorem gateRowOrSkip_C7 (cfg : GateCfg) (ob cb lb pb : ℕ) (sl : ℕ → ℕ)
    (minSeq step row b k : ℕ) (oS : Bool) (st : GateBuffers)
    (hIF : cfg.inputForget = true)
    (hActive : ¬ (minSeq ≤ step ∧ sl (row + b) ≤ step))
    (hk : k < cfg.hiddenSize) :
    (gateRowOrSkip cfg ob cb lb pb sl minSeq step row oS b st).out
        (ob + b * (4 * cfg.hiddenSize) + cfg.hiddenSize + k)
      = 1 - (gateRowOrSkip cfg ob cb lb pb sl minSeq step row oS b st).out
        (ob + b * (4 * cfg.hiddenSize) + k) := by
  simp only [gateRowOrSkip]
  rw [if_neg hActive]
  simp only [gateRow]
  rw [lstmHiddenStage_out, lstmOutputGateStage_out_ne,
    lstmOutputGateStage_out_ne, lstmMergeStage_out, lstmCellGateStage_out_ne,
    lstmCellGateStage_out_ne, lstmForgetGateStage_out_at,
    lstmForgetGateStage_out_ne]
  · rw [hIF]
    simp
  all_goals omega

/-- Claim C4: with peepholes in use, for an active row the input and
forget gate pre-activations add the peephole product with the PREVIOUS
cell value, the cell row is updated in place to
f_t * C_prev + i_t * c_bar, and the output-gate pre-activation adds
peephole_o times the CURRENT cell value just produced by that merge
(pC_cur aliases pCprev_hidden_size), not the previous one. -/
theorem gateRowOrSkip_C4 (cfg : GateCfg) (ob cb lb pb : ℕ) (sl : ℕ → ℕ)
    (minSeq step row b k : ℕ) (oS : Bool) (st : GateBuffers)
    (hPeep : cfg.usePeepholes = true)
    (hActive : ¬ (minSeq ≤ step ∧ sl (row + b) ≤ step))
    (hk : k < cfg.hiddenSize) :
    (gateRowOrSkip cfg ob cb lb pb sl minSeq step row oS b st).cPrev
        (cb + b * cfg.hiddenSize + k)
      = (if cfg.inputForget = true
          then 1 - cfg.fAct (clipWithBiasPtr cfg.useBias cfg.clip cfg.biasWRi k
            (st.out (ob + b * (4 * cfg.hiddenSize) + k)
              + st.cPrev (cb + b * cfg.hiddenSize + k) * cfg.peepholeI k))
          else cfg.fAct (clipWithBiasPtr cfg.useBias cfg.clip cfg.biasWRf k
            (st.out (ob + b * (4 * cfg.hiddenSize) + cfg.hiddenSize + k)
              + st.cPrev (cb + b * cfg.hiddenSize + k) * cfg.peepholeF k)))
          * st.cPrev (cb + b * cfg.hiddenSize + k)
        + cfg.fAct (clipWithBiasPtr cfg.useBias cfg.clip cfg.biasWRi k
            (st.out (ob + b * (4 * cfg.hiddenSize) + k)
              + st.cPrev (cb + b * cfg.hiddenSize + k) * cfg.peepholeI k))
          * cfg.gAct (clipWithBiasPtr cfg.useBias cfg.clip cfg.biasWRc k
            (st.out (ob + b * (4 * cfg.hiddenSize) + 3 * cfg.hiddenSize + k)))
    ∧ (gateRowOrSkip cfg ob cb lb pb sl minSeq step row oS b st).out
        (ob + b * (4 * cfg.hiddenSize) + 2 * cfg.hiddenSize + k)
      = cfg.fAct (clipWithBiasPtr cfg.useBias cfg.clip cfg.biasWRo k
          (st.out (ob + b * (4 * cfg.hiddenSize) + 2 * cfg.hiddenSize + k)
            + (gateRowOrSkip cfg ob cb lb pb sl minSeq step row oS b st).cPrev
                (cb + b * cfg.hiddenSize + k) * cfg.peepholeO k)) := by
  have hfold : gateRowOrSkip cfg ob cb lb pb sl minSeq step row oS b st
      = gateRow cfg ob cb lb pb row b st := by
    unfold gateRowOrSkip
    rw [if_neg hActive]
  rw [hfold]
  simp only [gateRow]
  have e2 : ob + b * (4 * cfg.hiddenSize) + 2 * cfg.hiddenSize + k
      = ob + b * (4 * cfg.hiddenSize) + cfg.hiddenSize + cfg.hiddenSize + k := by
    ring
  have e3 : ob + b * (4 * cfg.hiddenSize) + 3 * cfg.hiddenSize + k
      = ob + b * (4 * cfg.hiddenSize) + cfg.hiddenSize + cfg.hiddenSize
        + cfg.hiddenSize + k := by
    ring
  rw [e2, e3]
  constructor
  · rw [lstmHiddenStage_cPrev, lstmOutputGateStage_cPrev,
      lstmMergeStage_cPrev_at, lstmCellGateStage_cPrev,
      lstmForgetGateStage_cPrev, lstmInputGateStage_cPrev,
      lstmCellGateStage_out_at, lstmCellGateStage_out_ne,
      lstmCellGateStage_out_ne, lstmForgetGateStage_out_at,
      lstmForgetGateStage_out_ne, lstmForgetGateStage_out_ne,
      lstmInputGateStage_out_at, lstmInputGateStage_out_ne,
      lstmInputGateStage_out_ne, lstmInputGateStage_cPrev]
    · simp only [hPeep, eq_self_iff_true, if_true]
    all_goals omega
  · rw [lstmHiddenStage_out, lstmHiddenStage_cPrev,
      lstmOutputGateStage_out_at, lstmOutputGateStage_cPrev,
      lstmMergeStage_out, lstmCellGateStage_out_ne,
      lstmForgetGateStage_out_ne, lstmInputGateStage_out_ne]
    · simp only [hPeep, eq_self_iff_true, if_true]
    all_goals omega

/-- Concrete one-neuron configuration with peepholes for witnesses:
identity activations, no clip, no bias, peephole vectors 2, 3, 5. -/
def lstmCfgPeep : GateCfg :=
  { hiddenSize := 1
    usePeepholes := true
    useBias := false
    inputForget := false
    clip := 0
    fAct := fun x => x
    gAct := fun x => x
    hAct := fun x => x
    peepholeI := fun _ => 2
    peepholeO := fun _ => 3
    peepholeF := fun _ => 5
    biasWRi := fun _ => 0
    biasWRo := fun _ => 0
    biasWRf := fun _ => 0
    biasWRc := fun _ => 0 }

/-- Concrete one-neuron configuration with coupled gates (input_forget). -/
def lstmCfgCoupled : GateCfg :=
  { hiddenSize := 1
    usePeepholes := false
    useBias := false
    inputForget := true
    clip := 0
    fAct := fun x => x
    gAct := fun x => x
    hAct := fun x => x
    peepholeI := fun _ => 0
    peepholeO := fun _ => 0
    peepholeF := fun _ => 0
    biasWRi := fun _ => 0
    biasWRo := fun _ => 0
    biasWRf := fun _ => 0
    biasWRc := fun _ => 0 }

/-- Concrete gate buffers for witnesses: ifog slice holding the index
value, previous cell 7, output buffer holding 9 everywhere. -/
def lstmBufW : GateBuffers :=
  { out := fun i => (i : ℚ)
    cPrev := fun _ => 7
    clipped := fun _ => 0
    output := fun _ => 9 }

/-- Witness for claim C3: a masked row (sequence length 0 at step 0) in a
one-row call leaves the ifog, cell and clipped buffers untouched, writes
zero into its output row, and leaves other output indices (9 here)
untouched. -/
theorem gateRowOrSkip_C3_witness :
    (gateRowOrSkip lstmCfgPeep 0 0 0 0 (fun _ => 0) 0 0 0 true 0
        lstmBufW).out = lstmBufW.out
      ∧ (gateRowOrSkip lstmCfgPeep 0 0 0 0 (fun _ => 0) 0 0 0 true 0
        lstmBufW).cPrev = lstmBufW.cPrev
      ∧ (gateRowOrSkip lstmCfgPeep 0 0 0 0 (fun _ => 0) 0 0 0 true 0
        lstmBufW).clipped = lstmBufW.clipped
      ∧ (gateRowOrSkip lstmCfgPeep 0 0 0 0 (fun _ => 0) 0 0 0 true 0
        lstmBufW).output 0 = 0
      ∧ (gateRowOrSkip lstmCfgPeep 0 0 0 0 (fun _ => 0) 0 0 0 true 0
        lstmBufW).output 5 = 9 := by
  have h := gateRowOrSkip_C3 lstmCfgPeep 0 0 0 0 (fun _ => 0) 0 0 0 0 0 5
    true lstmBufW (by decide) (by decide) (by decide)
  refine ⟨h.1, h.2.1, h.2.2.1, ?_, ?_⟩
  · have h4 := h.2.2.2.1 rfl
    simpa using h4
  · have h5 := h.2.2.2.2
    simpa [lstmBufW] using h5

/-- Witness for claim C4 at a concrete input: previous cell 7, ifog slice
the index function, identity activations; the cell becomes
(1 + 7 * 5) * 7 + (0 + 7 * 2) * 3 = 294 and the output gate reads the
current cell: 2 + 294 * 3 = 884. -/
theorem gateRowOrSkip_C4_witness :
    (gateRowOrSkip lstmCfgPeep 0 0 0 0 (fun _ => 1) 1 0 0 false 0
        lstmBufW).cPrev 0 = 294
      ∧ (gateRowOrSkip lstmCfgPeep 0 0 0 0 (fun _ => 1) 1 0 0 false 0
        lstmBufW).out 2 = 884 := by
  have h := gateRowOrSkip_C4 lstmCfgPeep 0 0 0 0 (fun _ => 1) 1 0 0 0 0
    false lstmBufW rfl (by decide) (by decide)
  constructor
  · have h1 := h.1
    norm_num [lstmCfgPeep, lstmBufW, clipWithBiasPtr, clipOp] at h1
    simpa using h1
  · have h2 := h.2
    have h1 := h.1
    norm_num [lstmCfgPeep, lstmBufW, clipWithBiasPtr, clipOp] at h1 h2
    rw [h1] at h2
    norm_num at h2
    simpa using h2

/-- Witness for claim C7 at a concrete input with input_forget set: the f
slice equals one minus the i slice after the kernel. -/
theorem gateRowOrSkip_C7_witness :
    (gateRowOrSkip lstmCfgCoupled 0 0 0 0 (fun _ => 1) 1 0 0 false 0
        lstmBufW).out 1
      = 1 - (gateRowOrSkip lstmCfgCoupled 0 0 0 0 (fun _ => 1) 1 0 0
        false 0 lstmBufW).out 0 := by
  have h := gateRowOrSkip_C7 lstmCfgCoupled 0 0 0 0 (fun _ => 1) 1 0 0 0 0
    false lstmBufW rfl (by decide) (by decide)
  simpa using h

/- ===================================================================
   UniDirectionalLstm::Compute (deep_cpu_lstm.cc lines 792-1069),
   sequential (column-parallel) branch, forward direction
   =================================================================== -/

/-- Sum of f 0 + .. + f (n-1), the inner product loop of a GEMM. -/
def dotRange : ℕ → (ℕ → ℚ) → ℚ
  | 0, _ => 0
  | n + 1, f => dotRange n f + f n

/-- Modelled from the spec: the external GEMM primitive (spec section 6),
row-major with no transpose: for i below M and j below N the destination
entry at cBase + i*ldc + j becomes alpha times the inner product of row i
of A (from aBase, leading dimension lda) with column j of B (from bBase,
leading dimension ldb) plus beta times the previous value; all other
indices are untouched. -/
def computeGemm (M N K : ℕ) (alpha : ℚ) (Am : ℕ → ℚ) (aBase lda : ℕ)
    (Bm : ℕ → ℚ) (bBase ldb : ℕ) (beta : ℚ) (C : ℕ → ℚ) (cBase ldc : ℕ) :
    ℕ → ℚ :=
  fun idx =>
    if cBase ≤ idx ∧ (idx - cBase) / ldc < M ∧ (idx - cBase) % ldc < N then
      alpha * dotRange K (fun kk =>
          Am (aBase + ((idx - cBase) / ldc) * lda + kk)
            * Bm (bBase + kk * ldb + (idx - cBase) % ldc))
        + beta * C idx
    else C idx

/-- Maximum of sl 0 .. sl (n-1), the max_element call at line 842. -/
def spanMax (sl : ℕ → ℕ) : ℕ → ℕ
  | 0 => 0
  | b + 1 => max (spanMax sl b) (sl b)

/-- Minimum of sl 0 .. sl (n-1), the min_element call at line 846. -/
def spanMin (sl : ℕ → ℕ) : ℕ → ℕ
  | 0 => 0
  | 1 => sl 0
  | b + 2 => min (spanMin sl (b + 1)) (sl (b + 1))

/-- Where the previous_state iterator points: the batched_hidden0_ buffer
before the first step, then the just-written step slice of the outputs
(sequence mode) or the final hidden buffer (sequence-less mode). -/
inductive PrevPtr
  | hid0
  | inOutputs (base : ℕ)
  | inFinal

/-- The buffers Compute reads and writes: output_ifog, the batched
previous cell, the clipped scratch, the caller's Y span, the final hidden
and final cell spans, and batched_hidden0_ holding the initial hidden
state, plus the previous_state iterator. -/
structure LstmState where
  outIFOG : ℕ → ℚ
  cPrev : ℕ → ℚ
  clipped : ℕ → ℚ
  outputs : ℕ → ℚ
  finalHidden : ℕ → ℚ
  finalCell : ℕ → ℚ
  hidden0 : ℕ → ℚ
  prev : PrevPtr

/-- Dereference previous_state at offset i. -/
def readPrev (st : LstmState) (i : ℕ) : ℚ :=
  match st.prev with
  | .hid0 => st.hidden0 i
  | .inOutputs base => st.outputs (base + i)
  | .inFinal => st.finalHidden i

/-- Modelled from the spec: ExecuteLambdaInParallel submits one task per
stripe of k work items out of N (spec section 4.6); the stripe count. -/
def stripeCount (N k : ℕ) : ℕ := if k = 0 then 0 else (N + k - 1) / k

/-- One stripe of the input GEMM (lines 861-879): rows from j*k, boundary
clamped to total_rows, computing X times the fused transposed input
weights with beta zero. -/
def inputGemmStripe (H I : ℕ) (W X : ℕ → ℚ) (totalRows k j : ℕ)
    (C : ℕ → ℚ) : ℕ → ℚ :=
  let row := j * k
  let localRows := if totalRows < row + k then totalRows - row else k
  computeGemm localRows (4 * H) I 1 X (row * I) I W 0 (4 * H) 0 C
    (row * (4 * H)) (4 * H)

/-- All input-GEMM stripes, in stripe order. -/
def inputGemmLoop (H I : ℕ) (W X : ℕ → ℚ) (totalRows k : ℕ) :
    ℕ → (ℕ → ℚ) → (ℕ → ℚ)
  | 0, C => C
  | j + 1, C => inputGemmStripe H I W X totalRows k j
      (inputGemmLoop H I W X totalRows k j C)

/-- One column stripe of the per-step hidden GEMM (lines 994-1009):
thread tid covers (4*H)/hnt columns from tid*local_cols, the last thread
taking the remainder; previous_state times the fused transposed recurrent
weights is accumulated (beta one) into the step slice of output_ifog. -/
def hiddenGemmStripe (H B hnt : ℕ) (R : ℕ → ℚ) (step tid : ℕ)
    (st : LstmState) : LstmState :=
  let localCols := (4 * H) / hnt
  let startCol := tid * localCols
  let cols := if tid = hnt - 1 then 4 * H - tid * localCols else localCols
  { st with outIFOG := (computeGemm B cols H 1 (readPrev st) 0 H R startCol
      (4 * H) 1 st.outIFOG (step * B * (4 * H) + startCol) (4 * H)) }

/-- All hidden-GEMM column stripes of one step. -/
def hiddenGemmLoop (H B hnt : ℕ) (R : ℕ → ℚ) (step : ℕ) :
    ℕ → LstmState → LstmState
  | 0, st => st
  | t + 1, st => hiddenGemmStripe H B hnt R step t
      (hiddenGemmLoop H B hnt R step t st)

/-- View of the Compute state as the four gate-kernel buffers: the
batched_output iterator aliases the Y span in sequence mode and the final
hidden span otherwise (lines 1016-1024). -/
def gateBuffersOf (st : LstmState) (oS : Bool) : GateBuffers :=
  { out := st.outIFOG
    cPrev := st.cPrev
    clipped := st.clipped
    output := if oS then st.outputs else st.finalHidden }

/-- Write the gate-kernel buffers back into the Compute state, resolving
the batched_output alias. -/
def lstmStateWith (st : LstmState) (gb : GateBuffers) (oS : Bool) :
    LstmState :=
  { st with
    outIFOG := gb.out
    cPrev := gb.cPrev
    clipped := gb.clipped
    outputs := if oS then gb.output else st.outputs
    finalHidden := if oS then st.finalHidden else gb.output }

/-- The copy-last-row-to-final_cell_state loop (lines 1034-1040): rows
whose sequence length is step+1 snapshot their row of the batched
previous cell buffer (just merged to the current cell) into Y_c. -/
def finalCellCopyLoop (H : ℕ) (sl : ℕ → ℕ) (step : ℕ) :
    ℕ → LstmState → LstmState
  | 0, st => st
  | b + 1, st =>
    let st' := finalCellCopyLoop H sl step b st
    if step + 1 = sl b then
      { st' with finalCell := (writeSlice st'.finalCell (b * H) H
          (fun kk => st'.cPrev (b * H + kk))) }
    else st'

/-- The set-to-0-if-step-exceeds-sequence-length loop (lines 1042-1050),
run only when a sequence output is emitted. -/
def zeroTailLoop (H osl minSeq step : ℕ) (sl : ℕ → ℕ) :
    ℕ → LstmState → LstmState
  | 0, st => st
  | b + 1, st =>
    let st' := zeroTailLoop H osl minSeq step sl b st
    if minSeq ≤ step ∧ sl b ≤ step then
      { st' with outputs := (writeSlice st'.outputs (step * osl + b * H) H
          (fun _ => 0)) }
    else st'

/-- One iteration of the sequential step loop (lines 985-1053): the
column-striped hidden GEMM, the gate kernel over all batch rows, the
final-cell snapshot loop, the zero tail loop in sequence mode, and the
advance of previous_state to batched_output. -/
def lstmStep (cfg : GateCfg) (B hnt osl minSeq : ℕ) (sl : ℕ → ℕ)
    (R : ℕ → ℚ) (oS : Bool) (step : ℕ) (st : LstmState) : LstmState :=
  let H := cfg.hiddenSize
  let st1 := hiddenGemmLoop H B hnt R step hnt st
  let gb := gateComputations cfg (step * B * (4 * H)) 0 0
    (if oS then step * osl else 0) sl minSeq step 0 oS B
    (gateBuffersOf st1 oS)
  let st2 := lstmStateWith st1 gb oS
  let st3 := finalCellCopyLoop H sl step B st2
  let st4 := if oS then zeroTailLoop H osl minSeq step sl B st3 else st3
  { st4 with prev := if oS then PrevPtr.inOutputs (step * osl)
      else PrevPtr.inFinal }

/-- The sequential step loop over steps 0 .. n-1. -/
def lstmStepLoop (cfg : GateCfg) (B hnt osl minSeq : ℕ) (sl : ℕ → ℕ)
    (R : ℕ → ℚ) (oS : Bool) : ℕ → LstmState → LstmState
  | 0, st => st
  | s + 1, st => lstmStep cfg B hnt osl minSeq sl R oS s
      (lstmStepLoop cfg B hnt osl minSeq sl R oS s st)

/-- Flat source offset of the copy-last-output-to-final_hidden_state read
at line 1060: (sequence_lens[b] - 1) * output_step_length + b * H,
computed in the signed arithmetic of the C++ iterators. -/
def lastHiddenOffset (sl : ℕ → ℕ) (osl H b : ℕ) : ℤ :=
  ((sl b : ℤ) - 1) * osl + b * H

/-- The copy-last-output-to-final_hidden_state loop (lines 1056-1063),
with the source read guarded by the bounds of the Y span: an offset
outside [0, outLen - H] is an out-of-range access of the outputs span
and yields none (the source performs it unguarded). -/
def finalHiddenCopyLoop (H osl outLen : ℕ) (sl : ℕ → ℕ)
    (outputs : ℕ → ℚ) : ℕ → (ℕ → ℚ) → Option (ℕ → ℚ)
  | 0, fh => some fh
  | b + 1, fh =>
    match finalHiddenCopyLoop H osl outLen sl outputs b fh with
    | none => none
    | some f =>
      let off := lastHiddenOffset sl osl H b
      if 0 ≤ off ∧ off.toNat + H ≤ outLen then
        some (writeSlice f (b * H) H (fun kk => outputs (off.toNat + kk)))
      else none

/-- UniDirectionalLstm Compute for the forward direction in the
sequential (batch_parallel_ false) branch: empty sequence lengths are
synthesized as seq_length; output_step_length doubles when writing slot 0
of a bidirectional output; the input GEMM runs over
max_sequence_length * batch_size rows in stripes of ceil(rows /
input_num_threads); the steps run sequentially; in sequence mode the
per-row last valid output row is copied into the final hidden state.
The reverse direction differs only by the input and output passes through
the external ReverseSequence helper.  outLen is the size of the Y span
the caller passed (output_size minus (num_directions - 1) *
batch_size * hidden_size in ComputeImpl). -/
def lstmCompute (cfg : GateCfg) (S B I D imt hnt outLen : ℕ)
    (W R X : ℕ → ℚ) (slOpt : Option (ℕ → ℕ)) (oS : Bool)
    (st0 : LstmState) : Option LstmState :=
  let H := cfg.hiddenSize
  let sl := match slOpt with
    | none => fun _ => S
    | some f => f
  let osl := if D = 2 then 2 * B * H else B * H
  let maxSeq := spanMax sl B
  let minSeq := min S (spanMin sl B)
  let totalRows := maxSeq * B
  let k := totalRows / imt + (if totalRows % imt = 0 then 0 else 1)
  let st1 := { st0 with outIFOG := (inputGemmLoop H I W X totalRows k
      (stripeCount totalRows k) st0.outIFOG) }
  let st2 := lstmStepLoop cfg B hnt osl minSeq sl R oS maxSeq st1
  if oS then
    match finalHiddenCopyLoop H osl outLen sl st2.outputs B st2.finalHidden with
    | some fh => some { st2 with finalHidden := fh }
    | none => none
  else some st2

/-- Concrete one-neuron configuration with no peepholes, no bias, no
coupling, no clip and identity activations. -/
def lstmCfgPlain : GateCfg :=
  { hiddenSize := 1
    usePeepholes := false
    useBias := false
    inputForget := false
    clip := 0
    fAct := fun x => x
    gAct := fun x => x
    hAct := fun x => x
    peepholeI := fun _ => 0
    peepholeO := fun _ => 0
    peepholeF := fun _ => 0
    biasWRi := fun _ => 0
    biasWRo := fun _ => 0
    biasWRf := fun _ => 0
    biasWRc := fun _ => 0 }

/-- Initial Compute state for the claim C1 failing input: initial_h = 5
(copied into batched_hidden0_ by InitializeBuffers), initial_c = 6
(copied into the batched previous cell), while the caller's Y_h and Y_c
spans hold the unrelated prior contents 7 and 8. -/
def lstmStC1 : LstmState :=
  { outIFOG := fun _ => 0
    cPrev := fun _ => 6
    clipped := fun _ => 0
    outputs := fun _ => 9
    finalHidden := fun _ => 7
    finalCell := fun _ => 8
    hidden0 := fun _ => 5
    prev := PrevPtr.hid0 }

/-- Claim C1 is violated by the code: with S = B = I = H = 1, sequence
length 0 for the only row and no sequence output, Compute runs zero steps,
never writes the final hidden or final cell spans, and returns them still
holding their prior contents 7 and 8 rather than initial_h = 5 and
initial_c = 6. -/
theorem lstmCompute_C1 :
    (lstmCompute lstmCfgPlain 1 1 1 1 1 1 1 (fun _ => 0) (fun _ => 0)
        (fun _ => 0) (some fun _ => 0) false lstmStC1).map
        (fun st => (st.finalHidden 0, st.finalCell 0)) = some ((7 : ℚ), 8)
      ∧ lstmStC1.hidden0 0 = 5 ∧ lstmStC1.cPrev 0 = 6 := by
  refine ⟨by decide, by decide, by decide⟩

/-- Initial Compute state for the claim C2 failing input: the caller's Y
span holds the unrelated prior contents 9 everywhere; everything else is
zero. -/
def lstmStC2 : LstmState :=
  { outIFOG := fun _ => 0
    cPrev := fun _ => 0
    clipped := fun _ => 0
    outputs := fun _ => 9
    finalHidden := fun _ => 0
    finalCell := fun _ => 0
    hidden0 := fun _ => 0
    prev := PrevPtr.hid0 }

/-- Claim C2 is violated by the code: with S = 2, B = I = H = 1,
sequence length 1 and a sequence output, the step loop runs only steps
below max(sequence_lens) = 1, so the step-1 row of Y is never written and
keeps its prior content 9 instead of being zeroed; step 0 is written (to
0 with all-zero weights and inputs). -/
theorem lstmCompute_C2 :
    (lstmCompute lstmCfgPlain 2 1 1 1 1 1 2 (fun _ => 0) (fun _ => 0)
        (fun _ => 0) (some fun _ => 1) true lstmStC2).map
        (fun st => (st.outputs 0, st.outputs 1)) = some ((0 : ℚ), 9) := by
  norm_num [lstmCompute, lstmStepLoop, lstmStep, hiddenGemmLoop,
    hiddenGemmStripe, computeGemm, dotRange, gateComputations, gateRowOrSkip,
    gateRow, lstmInputGateStage, lstmForgetGateStage, lstmCellGateStage,
    lstmMergeStage, lstmOutputGateStage, lstmHiddenStage, clipWithBiasPtr,
    clipOp, writeSlice, gateBuffersOf, lstmStateWith, finalCellCopyLoop,
    zeroTailLoop, finalHiddenCopyLoop, lastHiddenOffset, spanMax, spanMin,
    stripeCount, inputGemmLoop, inputGemmStripe, readPrev, lstmCfgPlain,
    lstmStC2, Option.map]

theorem finalHiddenCopyLoop_isSome (H osl outLen : ℕ) (sl : ℕ → ℕ)
    (outputs : ℕ → ℚ) (n : ℕ) (fh : ℕ → ℚ)
    (h : ∀ b, b < n → 0 ≤ lastHiddenOffset sl osl H b
      ∧ (lastHiddenOffset sl osl H b).toNat + H ≤ outLen) :
    (finalHiddenCopyLoop H osl outLen sl outputs n fh).isSome = true := by
  induction n with
  | zero => rfl
  | succ m ih =>
    have hm := ih (fun b hb => h b (by omega))
    simp only [finalHiddenCopyLoop]
    cases hc : finalHiddenCopyLoop H osl outLen sl outputs m fh with
    | none =>
      rw [hc] at hm
      simp at hm
    | some f =>
      dsimp only
      rw [if_pos (h m (Nat.lt_succ_self m))]
      rfl

/-- Claim C10: the unguarded source read of the last-valid-hidden copy is
safe under the precondition that every sequence length lies in [1, S]:
with output_step_length as Compute picks it (doubled only for the forward
slot of a bidirectional output) and the Y span size ComputeImpl passes
(output_size minus (num_directions - 1) per-direction offsets), every
per-row read window [offset, offset + H) lies inside the span and the
out-of-range branch of the embedded copy is unreachable; and a row with
sequence length 0 yields a negative offset. -/
theorem finalHiddenCopy_C10 (S B H D : ℕ) (sl : ℕ → ℕ)
    (outputs fh : ℕ → ℚ) (hD : D = 1 ∨ D = 2) (hH : 1 ≤ H) :
    ((∀ b, b < B → 1 ≤ sl b ∧ sl b ≤ S) →
        (∀ b, b < B →
          0 ≤ lastHiddenOffset sl (if D = 2 then 2 * B * H else B * H) H b
            ∧ (lastHiddenOffset sl (if D = 2 then 2 * B * H else B * H) H
                b).toNat + H ≤ S * D * B * H - (D - 1) * (B * H))
          ∧ (finalHiddenCopyLoop H (if D = 2 then 2 * B * H else B * H)
              (S * D * B * H - (D - 1) * (B * H)) sl outputs B
              fh).isSome = true)
      ∧ (∀ b, b < B → sl b = 0 →
          lastHiddenOffset sl (if D = 2 then 2 * B * H else B * H) H b
            < 0) := by
  have hbound : ∀ b, b < B →
      ((b : ℤ) + 1) * (H : ℤ) ≤ (B : ℤ) * (H : ℤ) := by
    intro b hb
    exact mul_le_mul_of_nonneg_right (by exact_mod_cast hb) (by positivity)
  rcases hD with hD | hD <;> subst hD
  · have hD2 : ¬ (1 : ℕ) = 2 := by norm_num
    simp only [hD2, if_false, Nat.sub_self, zero_mul, Nat.sub_zero]
    constructor
    · intro hsl
      have key : ∀ b, b < B →
          0 ≤ lastHiddenOffset sl (B * H) H b
            ∧ (lastHiddenOffset sl (B * H) H b).toNat + H
              ≤ S * 1 * B * H := by
        intro b hb
        obtain ⟨h1, h2⟩ := hsl b hb
        have hoff : lastHiddenOffset sl (B * H) H b
            = ((sl b : ℤ) - 1) * ((B : ℤ) * H) + (b : ℤ) * H := by
          unfold lastHiddenOffset
          push_cast
          ring
        have h1' : (1 : ℤ) ≤ (sl b : ℤ) := by exact_mod_cast h1
        have h2' : (sl b : ℤ) ≤ (S : ℤ) := by exact_mod_cast h2
        have e1 : ((sl b : ℤ) - 1) * ((B : ℤ) * H)
            ≤ ((S : ℤ) - 1) * ((B : ℤ) * H) :=
          mul_le_mul_of_nonneg_right (by omega) (by positivity)
        have hnn : 0 ≤ lastHiddenOffset sl (B * H) H b := by
          rw [hoff]
          have := mul_nonneg (by omega : (0 : ℤ) ≤ (sl b : ℤ) - 1)
            (by positivity : (0 : ℤ) ≤ (B : ℤ) * H)
          have := mul_nonneg (by positivity : (0 : ℤ) ≤ (b : ℤ))
            (by positivity : (0 : ℤ) ≤ (H : ℤ))
          omega
        have hup : lastHiddenOffset sl (B * H) H b + (H : ℤ)
            ≤ ((S * 1 * B * H : ℕ) : ℤ) := by
          rw [hoff]
          push_cast
          nlinarith [e1, hbound b hb]
        exact ⟨hnn, by omega⟩
      exact ⟨key, finalHiddenCopyLoop_isSome _ _ _ _ _ _ _ key⟩
    · intro b hb h0
      unfold lastHiddenOffset
      rw [h0]
      have hlt : (b : ℤ) * H < (B : ℤ) * H := by
        have hH' : (1 : ℤ) ≤ (H : ℤ) := by exact_mod_cast hH
        nlinarith [hbound b hb]
      push_cast
      nlinarith [hlt]
  · simp only [if_pos rfl]
    constructor
    · intro hsl
      have key : ∀ b, b < B →
          0 ≤ lastHiddenOffset sl (2 * B * H) H b
            ∧ (lastHiddenOffset sl (2 * B * H) H b).toNat + H
              ≤ S * 2 * B * H - (2 - 1) * (B * H) := by
        intro b hb
        obtain ⟨h1, h2⟩ := hsl b hb
        have hS1 : 1 ≤ S := le_trans h1 h2
        have hoff : lastHiddenOffset sl (2 * B * H) H b
            = ((sl b : ℤ) - 1) * (2 * ((B : ℤ) * H)) + (b : ℤ) * H := by
          unfold lastHiddenOffset
          push_cast
          ring
        have h1' : (1 : ℤ) ≤ (sl b : ℤ) := by exact_mod_cast h1
        have h2' : (sl b : ℤ) ≤ (S : ℤ) := by exact_mod_cast h2
        have e1 : ((sl b : ℤ) - 1) * (2 * ((B : ℤ) * H))
            ≤ ((S : ℤ) - 1) * (2 * ((B : ℤ) * H)) :=
          mul_le_mul_of_nonneg_right (by omega) (by positivity)
        have hnn : 0 ≤ lastHiddenOffset sl (2 * B * H) H b := by
          rw [hoff]
          have := mul_nonneg (by omega : (0 : ℤ) ≤ (sl b : ℤ) - 1)
            (by positivity : (0 : ℤ) ≤ 2 * ((B : ℤ) * H))
          have := mul_nonneg (by positivity : (0 : ℤ) ≤ (b : ℤ))
            (by positivity : (0 : ℤ) ≤ (H : ℤ))
          omega
        have hsub : (2 - 1) * (B * H) ≤ S * 2 * B * H := by
          have : 1 * (B * H) ≤ S * 2 * B * H := by nlinarith [hS1]
          simpa using this
        have hup : lastHiddenOffset sl (2 * B * H) H b + (H : ℤ)
            ≤ ((S * 2 * B * H - (2 - 1) * (B * H) : ℕ) : ℤ) := by
          rw [hoff, Nat.cast_sub hsub]
          push_cast
          nlinarith [e1, hbound b hb]
        exact ⟨hnn, by omega⟩
      exact ⟨key, finalHiddenCopyLoop_isSome _ _ _ _ _ _ _ key⟩
    · intro b hb h0
      unfold lastHiddenOffset
      rw [h0]
      have hlt : (b : ℤ) * H < (B : ℤ) * H := by
        have hH' : (1 : ℤ) ≤ (H : ℤ) := by exact_mod_cast hH
        nlinarith [hbound b hb]
      push_cast
      nlinarith [hlt]

/-- Witness for claim C10 at S = 2, B = 2, H = 1, D = 1 with sequence
lengths 1 and 2: the precondition holds and the guarded copy loop
succeeds for both rows. -/
theorem finalHiddenCopy_C10_witness :
    (∀ b, b < 2 → 1 ≤ b + 1 ∧ b + 1 ≤ 2) ∧
      (finalHiddenCopyLoop 1 (if (1 : ℕ) = 2 then 2 * 2 * 1 else 2 * 1)
        (2 * 1 * 2 * 1 - (1 - 1) * (2 * 1)) (fun b => b + 1)
        (fun _ => (0 : ℚ)) 2 (fun _ => 0)).isSome = true := by
  constructor
  · decide
  · exact ((finalHiddenCopy_C10 2 2 1 1 (fun b => b + 1) (fun _ => 0)
      (fun _ => 0) (Or.inl rfl) (le_refl 1)).1 (by decide)).2
